import Mathlib

/-!
Shallow embedding of the concentric-cone material and layout estimator
(`app.py`).

Numeric model: Python floats are modelled as real numbers.  `round(x, 2)`
is modelled by `round2` (round to the nearest hundredth; no value rounded
in this development is a tie, so the tie-breaking convention of Python's
`round` is irrelevant).  `math.pi` is `Real.pi`, `math.sin` is `Real.sin`,
`math.floor` and `math.ceil` are `Int.floor` and `Int.ceil`.  The
`ZeroDivisionError` raised by `calculate_slant_height` when
`sin(radians(angle)) == 0` is modelled by an `Option` result, and its
propagation out of `calculate_courses_and_breaks` likewise.
-/

noncomputable section

open Real

/-- Model of Python `round(x, 2)`: round to two decimal places. -/
def round2 (x : ℝ) : ℝ := (round (x * 100) : ℤ) / 100

/-- Model of Python `math.radians(deg)`. -/
def radiansOf (deg : ℝ) : ℝ := deg * π / 180

/-- Material of construction (the `moc` selectbox: stainless or carbon steel). -/
inductive Moc where
  | stainless
  | carbon

/-- The per-material plate widths, already in ascending order exactly as the
source lists them (`[48, 60]` resp. `[96, 120]`). -/
def plate_widths : Moc → List ℝ
  | .stainless => [48, 60]
  | .carbon => [96, 120]

/-- Value of `max(plate_widths)` in `calculate_courses_and_breaks`. -/
def max_width : Moc → ℝ
  | .stainless => 60
  | .carbon => 120

/-- Stainless-steel plate lengths: `[96, 120, 144] + list(range(180, 481))`. -/
def ss_lengths : List ℝ :=
  ([96, 120, 144] : List ℝ) ++ (List.range 301).map (fun n => ((180 + n : ℕ) : ℝ))

/-- Model of `get_plate_options(moc)`: the plate catalog, width-major order as
in the source list comprehension. -/
def get_plate_options : Moc → List (ℝ × ℝ)
  | .stainless => ([48, 60] : List ℝ).flatMap (fun w => ss_lengths.map (fun l => (w, l)))
  | .carbon =>
      ([96, 120] : List ℝ).flatMap (fun w => ([240, 360, 480] : List ℝ).map (fun l => (w, l)))

/-- The rounded slant height `(r_large - r_small) / sin(angle_rad)` that
`calculate_slant_height` returns on the non-error path. -/
def slant_raw (diameter angle_deg bottom_diameter : ℝ) : ℝ :=
  round2 ((diameter / 2 - bottom_diameter / 2) / Real.sin (radiansOf angle_deg))

/-- Model of `calculate_slant_height(diameter, angle_deg, bottom_diameter)`;
here `none` models the `ZeroDivisionError` raised when
`sin(radians(angle_deg)) == 0`. -/
def calculate_slant_height (diameter angle_deg bottom_diameter : ℝ) : Option ℝ :=
  if Real.sin (radiansOf angle_deg) = 0 then none
  else some (slant_raw diameter angle_deg bottom_diameter)

/-- Closed form of the `while total_slant / num_courses > max_width` loop in
`calculate_courses_and_breaks`: the loop starts at 2 and stops at the least
`n ≥ 2` with `total_slant / n ≤ max_width`, which is `max 2 ⌈total/maxw⌉₊`
for positive `maxw` (the loop-semantics characterisation is proved below). -/
def num_courses_loop (total maxw : ℝ) : ℕ := max 2 ⌈total / maxw⌉₊

/-- The dictionary returned by `calculate_courses_and_breaks`. -/
structure CourseInfo where
  totalSlant : ℝ
  numCourses : ℕ
  courseSlant : ℝ
  breakDiams : List ℝ
  usedWidth : ℝ

/-- Model of `next((w for w in plate_widths if w >= course_slant), max_width)`:
first element of the (sorted) width list that is `≥ course_slant`. -/
def first_ge : List ℝ → ℝ → Option ℝ
  | [], _ => none
  | w :: ws, cs => if cs ≤ w then some w else first_ge ws cs

/-- The non-error body of `calculate_courses_and_breaks(diameter, angle, moc)`
with the fixed bottom diameter 2 (so `bottom_radius = 1`).  `totalSlant` and
`courseSlant` are the rounded values stored in the returned dict; the break
diameters are computed from the unrounded `course_slant = total / num`. -/
def mk_course_info (diameter angle_deg : ℝ) (m : Moc) : CourseInfo :=
  let total := slant_raw diameter angle_deg 2
  let num := num_courses_loop total (max_width m)
  let cs := total / num
  { totalSlant := round2 total
    numCourses := num
    courseSlant := round2 cs
    breakDiams :=
      (List.range (num + 1)).map
        (fun i : ℕ => round2 (2 * (1 + (total - (i : ℝ) * cs) * Real.sin (radiansOf angle_deg))))
    usedWidth := (first_ge (plate_widths m) cs).getD (max_width m) }

/-- Model of `calculate_courses_and_breaks(diameter, angle, moc)`; here `none`
models the `ZeroDivisionError` propagating out of `calculate_slant_height`. -/
def calculate_courses_and_breaks (diameter angle_deg : ℝ) (m : Moc) : Option CourseInfo :=
  if Real.sin (radiansOf angle_deg) = 0 then none
  else some (mk_course_info diameter angle_deg m)

/-- One candidate dict built in the inner loop of
`estimate_plate_usage_per_course`. -/
structure GoreOption where
  course : ℕ
  segments : ℕ
  fit : ℤ
  plates : ℤ
  plate_width : ℝ
  plate_length : ℝ
  waste : ℝ
  gore_width : ℝ

/-- The candidate the inner loop builds for a given course, segment count and
plate, or `none` when one of the two guards (`slant > plate_width`,
`segments_fit <= 0`) rejects the combination. -/
def mk_option (course segs : ℕ) (r_outer r_inner slant plate_w plate_l : ℝ) :
    Option GoreOption :=
  let arc_angle := 2 * π / segs
  let avg_radius := (r_outer + r_inner) / 2
  let arc_width := arc_angle * avg_radius
  if slant > plate_w then none
  else
    let segments_fit := ⌊plate_l / arc_width⌋
    if segments_fit ≤ 0 then none
    else
      let plates_needed := ⌈(segs : ℝ) / (segments_fit : ℝ)⌉
      let segment_area := (π * r_outer ^ 2 - π * r_inner ^ 2) * (arc_angle / (2 * π))
      some
        { course := course
          segments := segs
          fit := segments_fit
          plates := plates_needed
          plate_width := plate_w
          plate_length := plate_l
          waste := round2 ((plates_needed : ℝ) * (plate_w * plate_l) - (segs : ℝ) * segment_area)
          gore_width := round2 arc_width }

/-- The list `range(2, 13, 2)`. -/
def seg_list : List ℕ := [2, 4, 6, 8, 10, 12]

/-- All candidates the nested `for segs ... for plate ...` loops generate for
one course, in generation order (segment-major, then catalog order). -/
def course_candidates (course : ℕ) (r_outer r_inner slant : ℝ)
    (opts : List (ℝ × ℝ)) : List GoreOption :=
  seg_list.flatMap
    (fun segs => opts.filterMap (fun wl => mk_option course segs r_outer r_inner slant wl.1 wl.2))

/-- The strict candidate comparison of the source:
`(option["plates"], option["waste"]) < (best_option["plates"], best_option["waste"])`. -/
def better (o b : GoreOption) : Prop :=
  o.plates < b.plates ∨ (o.plates = b.plates ∧ o.waste < b.waste)

open Classical in
/-- One step of the running-best update (`best_option is None or ... < ...`). -/
def pb_step (acc : Option GoreOption) (o : GoreOption) : Option GoreOption :=
  match acc with
  | none => some o
  | some b => if better o b then some o else some b

/-- The `best_option` left after scanning a candidate list. -/
def pick_best (l : List GoreOption) : Option GoreOption := l.foldl pb_step none

/-- One entry of the list `estimate_plate_usage_per_course` returns: either a
selected candidate dict, or the `"No fit"` placeholder dict (whose `course`
key is the stored 1-based index). -/
inductive CourseResult where
  | fit : GoreOption → CourseResult
  | nofit : ℕ → CourseResult

/-- Model of
`estimate_plate_usage_per_course(course_info, plate_options, override_gores)`.
The `override_gores` argument is accepted but, exactly as in the source, never
read: the body always searches `segs in range(2, 13, 2)`. -/
def estimate_plate_usage_per_course (ci : CourseInfo) (opts : List (ℝ × ℝ))
    (override_gores : Option (List ℕ)) : List CourseResult :=
  (List.range ci.numCourses).map
    (fun i =>
      match pick_best (course_candidates (i + 1) (ci.breakDiams.getD i 0 / 2)
          (ci.breakDiams.getD (i + 1) 0 / 2) ci.courseSlant opts) with
      | some b => CourseResult.fit b
      | none => CourseResult.nofit (i + 1))

/-- Test `isinstance(res["plates"], str)` on one result entry. -/
def isNoFit : CourseResult → Bool
  | .fit _ => false
  | .nofit _ => true

/-- The `plates` value of an entry (0 for the placeholder; only used on
layouts without placeholders, where it matches the source's integer sum). -/
def platesOf : CourseResult → ℤ
  | .fit o => o.plates
  | .nofit _ => 0

/-- The `waste` value of an entry (0 for the placeholder). -/
def wasteOf : CourseResult → ℝ
  | .fit o => o.waste
  | .nofit _ => 0

/-- The `segments` value of an entry (0 for the placeholder's `"N/A"`). -/
def segmentsOf : CourseResult → ℕ
  | .fit o => o.segments
  | .nofit _ => 0

/-- The `course` value of an entry. -/
def courseOf : CourseResult → ℕ
  | .fit o => o.course
  | .nofit c => c

/-- Model of `optimize_plate_usage(area_needed, plate_options, course_info)`.
The `area_needed` parameter is accepted but, exactly as in the source, never
read. -/
def optimize_plate_usage (area_needed : ℝ) (opts : List (ℝ × ℝ)) (ci : CourseInfo) :
    Option (ℤ × String × ℝ × List CourseResult) :=
  let layout := estimate_plate_usage_per_course ci opts none
  if layout.any isNoFit then none
  else some ((layout.map platesOf).sum, "mixed", (layout.map wasteOf).sum, layout)

/-- Modelled from the spec: the spec's candidate ranking tuple
`(platesNeeded, wasteArea, |segments - 4|)` as a strict lexicographic order,
used to compare the source's selection rule against the spec's. -/
def specLess (o b : GoreOption) : Prop :=
  o.plates < b.plates ∨
    (o.plates = b.plates ∧
      (o.waste < b.waste ∨
        (o.waste = b.waste ∧ |(o.segments : ℤ) - 4| < |(b.segments : ℤ) - 4|)))

/-- Strictly decreasing, as the spec asserts of the break-diameter sequence. -/
def strictly_decr (l : List ℝ) : Prop := l.Chain' (fun a b => a > b)

/-- The gore arc width `arc_angle * avg_radius` for a segment count and the
two course radii. -/
def mo_arc (segs : ℕ) (r_outer r_inner : ℝ) : ℝ := (2 * π / segs) * ((r_outer + r_inner) / 2)

/-- Value `segments_fit = math.floor(plate_length / arc_width)`. -/
def mo_fit (segs : ℕ) (r_outer r_inner plate_l : ℝ) : ℤ :=
  ⌊plate_l / mo_arc segs r_outer r_inner⌋

/-- Value `plates_needed = math.ceil(segs / segments_fit)`. -/
def mo_plates (segs : ℕ) (r_outer r_inner plate_l : ℝ) : ℤ :=
  ⌈(segs : ℝ) / ((mo_fit segs r_outer r_inner plate_l : ℤ) : ℝ)⌉

/-- The rounded waste of a candidate:
`round(plates_needed * plate_area - segs * segment_area, 2)`. -/
def mo_waste (segs : ℕ) (r_outer r_inner plate_w plate_l : ℝ) : ℝ :=
  round2 (((mo_plates segs r_outer r_inner plate_l : ℤ) : ℝ) * (plate_w * plate_l) -
    (segs : ℝ) * ((π * r_outer ^ 2 - π * r_inner ^ 2) * ((2 * π / segs) / (2 * π))))

/-- The candidate record `mk_option` produces when both guards pass. -/
def mk_option_val (course segs : ℕ) (r_outer r_inner plate_w plate_l : ℝ) : GoreOption :=
  { course := course
    segments := segs
    fit := mo_fit segs r_outer r_inner plate_l
    plates := mo_plates segs r_outer r_inner plate_l
    plate_width := plate_w
    plate_length := plate_l
    waste := mo_waste segs r_outer r_inner plate_w plate_l
    gore_width := round2 (mo_arc segs r_outer r_inner) }

/-- A concrete single-plate catalog used for the concrete evaluations below. -/
def demo_opts : List (ℝ × ℝ) := [(48, 100)]

/-- A concrete two-course `CourseInfo` (the fields `estimate_plate_usage_per_course`
reads: break diameters 20 → 10 → 2, course slant height 40). -/
def demo_info : CourseInfo :=
  { totalSlant := 80
    numCourses := 2
    courseSlant := 40
    breakDiams := [20, 10, 2]
    usedWidth := 48 }

/-
Helper lemmas: arithmetic facts about `round2` and the running-best fold.
-/

lemma round2_mono {x y : ℝ} (h : x ≤ y) : round2 x ≤ round2 y := by
  unfold round2
  have h1 : round (x * 100) ≤ round (y * 100) := by
    rw [round_eq, round_eq]
    exact Int.floor_mono (by linarith)
  have h2 : ((round (x * 100) : ℤ) : ℝ) ≤ ((round (y * 100) : ℤ) : ℝ) := Int.cast_le.mpr h1
  linarith

lemma round2_zero : round2 0 = 0 := by norm_num [round2]

lemma round2_nonneg {x : ℝ} (h : 0 ≤ x) : 0 ≤ round2 x := by
  have h0 : round2 0 ≤ round2 x := round2_mono h
  rw [round2_zero] at h0
  exact h0

lemma round2_abs_sub (x : ℝ) : |round2 x - x| ≤ 1 / 200 := by
  have h := abs_sub_round (x * 100)
  rw [abs_sub_comm] at h
  have e : round2 x - x = ((round (x * 100) : ℤ) - x * 100) / 100 := by
    unfold round2
    ring
  rw [e, abs_div]
  rw [abs_of_pos (show (0:ℝ) < 100 by norm_num)]
  linarith

lemma round2_neg_of_le {x : ℝ} (h : x ≤ -1) : round2 x < 0 := by
  have h1 : round2 x ≤ round2 (-1) := round2_mono h
  have h2 : round2 (-1) = -1 := by norm_num [round2, round_eq]
  linarith

lemma round2_two : round2 2 = 2 := by norm_num [round2, round_eq]

lemma better_irrefl (a : GoreOption) : ¬ better a a := by
  intro h
  rcases h with h | ⟨_, h⟩
  · exact lt_irrefl _ h
  · exact lt_irrefl _ h

lemma better_trans {a b c : GoreOption} (h1 : better a b) (h2 : better b c) : better a c := by
  unfold better at h1 h2 ⊢
  rcases h1 with h1 | ⟨h1e, h1w⟩ <;> rcases h2 with h2 | ⟨h2e, h2w⟩
  · exact Or.inl (lt_trans h1 h2)
  · exact Or.inl (h2e ▸ h1)
  · exact Or.inl (h1e ▸ h2)
  · exact Or.inr ⟨h1e.trans h2e, lt_trans h1w h2w⟩

lemma not_better_trans {a b c : GoreOption} (h1 : ¬ better a b) (h2 : ¬ better b c) :
    ¬ better a c := by
  unfold better at h1 h2 ⊢
  push_neg at h1 h2 ⊢
  obtain ⟨h1p, h1w⟩ := h1
  obtain ⟨h2p, h2w⟩ := h2
  refine ⟨le_trans h2p h1p, fun he => ?_⟩
  have hab : a.plates = b.plates := by omega
  have hbc : b.plates = c.plates := by omega
  exact le_trans (h2w hbc) (h1w hab)

lemma foldl_pb_ne_none (l : List GoreOption) (b : GoreOption) :
    List.foldl pb_step (some b) l ≠ none := by
  induction l generalizing b with
  | nil => simp
  | cons x xs ih =>
      simp only [List.foldl_cons, pb_step]
      split
      · exact ih x
      · exact ih b

lemma pick_best_none_iff (l : List GoreOption) : pick_best l = none ↔ l = [] := by
  constructor
  · intro h
    cases l with
    | nil => rfl
    | cons x xs => exact absurd h (foldl_pb_ne_none xs x)
  · intro h
    subst h
    rfl

lemma foldl_pb_spec (l : List GoreOption) (a r : GoreOption)
    (h : List.foldl pb_step (some a) l = some r) :
    (r = a ∨ r ∈ l) ∧ ¬ better a r ∧ ∀ c ∈ l, ¬ better c r := by
  induction l generalizing a with
  | nil =>
      simp only [List.foldl_nil, Option.some.injEq] at h
      subst h
      exact ⟨Or.inl rfl, better_irrefl a, by simp⟩
  | cons x xs ih =>
      simp only [List.foldl_cons] at h
      by_cases hx : better x a
      · rw [show pb_step (some a) x = some x by simp [pb_step, hx]] at h
        obtain ⟨hmem, hxr, hall⟩ := ih x h
        refine ⟨?_, ?_, ?_⟩
        · rcases hmem with rfl | hm
          · exact Or.inr (List.mem_cons_self _ _)
          · exact Or.inr (List.mem_cons_of_mem _ hm)
        · intro har
          exact hxr (better_trans hx har)
        · intro c hc
          rcases List.mem_cons.mp hc with rfl | hc2
          · exact hxr
          · exact hall c hc2
      · rw [show pb_step (some a) x = some a by simp [pb_step, hx]] at h
        obtain ⟨hmem, har, hall⟩ := ih a h
        refine ⟨?_, har, ?_⟩
        · rcases hmem with rfl | hm
          · exact Or.inl rfl
          · exact Or.inr (List.mem_cons_of_mem _ hm)
        · intro c hc
          rcases List.mem_cons.mp hc with rfl | hc2
          · exact not_better_trans hx har
          · exact hall c hc2

lemma pick_best_spec (l : List GoreOption) (r : GoreOption) (h : pick_best l = some r) :
    r ∈ l ∧ ∀ c ∈ l, ¬ better c r := by
  cases l with
  | nil => simp [pick_best] at h
  | cons x xs =>
      have h2 : List.foldl pb_step (some x) xs = some r := h
      obtain ⟨hmem, hxr, hall⟩ := foldl_pb_spec xs x r h2
      refine ⟨?_, ?_⟩
      · rcases hmem with rfl | hm
        · exact List.mem_cons_self _ _
        · exact List.mem_cons_of_mem _ hm
      · intro c hc
        rcases List.mem_cons.mp hc with rfl | hc2
        · exact hxr
        · exact hall c hc2

lemma foldl_pb_keep (l : List GoreOption) (b : GoreOption) (h : ∀ c ∈ l, ¬ better c b) :
    List.foldl pb_step (some b) l = some b := by
  induction l with
  | nil => rfl
  | cons x xs ih =>
      simp only [List.foldl_cons]
      rw [show pb_step (some b) x = some b by simp [pb_step, h x (List.mem_cons_self _ _)]]
      exact ih (fun c hc => h c (List.mem_cons_of_mem _ hc))

lemma pick_best_cons_keep (b : GoreOption) (l : List GoreOption)
    (h : ∀ c ∈ l, ¬ better c b) : pick_best (b :: l) = some b :=
  foldl_pb_keep l b h

lemma not_better_of_eq {a b : GoreOption} (hp : a.plates = b.plates) (hw : a.waste = b.waste) :
    ¬ better a b := by
  intro h
  rcases h with h | ⟨_, h⟩
  · rw [hp] at h
    exact lt_irrefl _ h
  · rw [hw] at h
    exact lt_irrefl _ h

lemma mk_option_eq_some (course segs : ℕ) (r_outer r_inner slant plate_w plate_l : ℝ)
    (h1 : ¬ slant > plate_w) (h2 : ¬ mo_fit segs r_outer r_inner plate_l ≤ 0) :
    mk_option course segs r_outer r_inner slant plate_w plate_l =
      some (mk_option_val course segs r_outer r_inner plate_w plate_l) := by
  unfold mo_fit mo_arc at h2
  simp only [mk_option, mk_option_val, mo_fit, mo_plates, mo_waste, mo_arc]
  rw [if_neg h1, if_neg h2]

lemma mk_option_mem_some {course segs : ℕ} {r_outer r_inner slant plate_w plate_l : ℝ}
    {o : GoreOption}
    (h : mk_option course segs r_outer r_inner slant plate_w plate_l = some o) :
    o = mk_option_val course segs r_outer r_inner plate_w plate_l ∧
      ¬ slant > plate_w ∧ ¬ mo_fit segs r_outer r_inner plate_l ≤ 0 := by
  by_cases h1 : slant > plate_w
  · simp only [mk_option] at h
    rw [if_pos h1] at h
    exact absurd h (by simp)
  · by_cases h2 : mo_fit segs r_outer r_inner plate_l ≤ 0
    · simp only [mk_option] at h
      rw [if_neg h1] at h
      unfold mo_fit mo_arc at h2
      rw [if_pos h2] at h
      exact absurd h (by simp)
    · rw [mk_option_eq_some course segs r_outer r_inner slant plate_w plate_l h1 h2] at h
      exact ⟨(Option.some.injEq _ _ ▸ h).symm, h1, h2⟩

/-
Concrete evaluation of the search on `demo_info` and `demo_opts`.  For any
course radii with `0 < r_outer + r_inner ≤ 15` the single 48 x 100 plate
accepts every even segment count 2..12, always with exactly one plate, and all
six candidates tie on `(plates, waste)`, so the scan keeps the first
(`segments = 2`).
-/

lemma demo_fit_ge (k : ℕ) (r_outer r_inner : ℝ) (hk : 0 < k)
    (hpos : 0 < r_outer + r_inner) (hle : r_outer + r_inner ≤ 15) :
    (k : ℤ) ≤ mo_fit k r_outer r_inner 100 := by
  unfold mo_fit mo_arc
  apply Int.le_floor.mpr
  have hk0 : (0:ℝ) < (k : ℝ) := by exact_mod_cast hk
  have harc : (0:ℝ) < (2 * π / k) * ((r_outer + r_inner) / 2) := by
    apply mul_pos
    · apply div_pos (by positivity) hk0
    · linarith
  rw [le_div_iff₀ harc]
  have hpi : π ≤ 4 := Real.pi_le_four
  push_cast
  have he : (k : ℝ) * ((2 * π / k) * ((r_outer + r_inner) / 2)) = π * (r_outer + r_inner) := by
    field_simp
    ring
  rw [he]
  nlinarith

lemma demo_fit_pos (k : ℕ) (r_outer r_inner : ℝ) (hk : 0 < k)
    (hpos : 0 < r_outer + r_inner) (hle : r_outer + r_inner ≤ 15) :
    ¬ mo_fit k r_outer r_inner 100 ≤ 0 := by
  have h := demo_fit_ge k r_outer r_inner hk hpos hle
  omega

lemma demo_plates_one (k : ℕ) (r_outer r_inner : ℝ) (hk : 0 < k)
    (hpos : 0 < r_outer + r_inner) (hle : r_outer + r_inner ≤ 15) :
    mo_plates k r_outer r_inner 100 = 1 := by
  have hge := demo_fit_ge k r_outer r_inner hk hpos hle
  have hfpos : (0:ℝ) < ((mo_fit k r_outer r_inner 100 : ℤ) : ℝ) := by
    have : (0:ℤ) < mo_fit k r_outer r_inner 100 := by omega
    exact_mod_cast this
  unfold mo_plates
  rw [Int.ceil_eq_iff]
  constructor
  · push_cast
    have : (0:ℝ) < (k : ℝ) / ((mo_fit k r_outer r_inner 100 : ℤ) : ℝ) :=
      div_pos (by exact_mod_cast hk) hfpos
    linarith
  · push_cast
    rw [div_le_one hfpos]
    exact_mod_cast hge

lemma demo_waste_eq (k : ℕ) (r_outer r_inner : ℝ) (hk : 0 < k)
    (hpos : 0 < r_outer + r_inner) (hle : r_outer + r_inner ≤ 15) :
    mo_waste k r_outer r_inner 48 100 = round2 (4800 - π * (r_outer ^ 2 - r_inner ^ 2)) := by
  unfold mo_waste
  rw [demo_plates_one k r_outer r_inner hk hpos hle]
  congr 1
  have hk0 : (k : ℝ) ≠ 0 := by
    have : (0:ℝ) < (k : ℝ) := by exact_mod_cast hk
    linarith
  field_simp
  ring

lemma demo_mk_some (c k : ℕ) (r_outer r_inner : ℝ) (hk : 0 < k)
    (hpos : 0 < r_outer + r_inner) (hle : r_outer + r_inner ≤ 15) :
    mk_option c k r_outer r_inner 40 48 100 = some (mk_option_val c k r_outer r_inner 48 100) :=
  mk_option_eq_some c k r_outer r_inner 40 48 100 (by norm_num)
    (demo_fit_pos k r_outer r_inner hk hpos hle)

lemma demo_cands (c : ℕ) (r_outer r_inner : ℝ)
    (hpos : 0 < r_outer + r_inner) (hle : r_outer + r_inner ≤ 15) :
    course_candidates c r_outer r_inner 40 demo_opts =
      [mk_option_val c 2 r_outer r_inner 48 100, mk_option_val c 4 r_outer r_inner 48 100,
       mk_option_val c 6 r_outer r_inner 48 100, mk_option_val c 8 r_outer r_inner 48 100,
       mk_option_val c 10 r_outer r_inner 48 100, mk_option_val c 12 r_outer r_inner 48 100] := by
  have e2 := demo_mk_some c 2 r_outer r_inner (by norm_num) hpos hle
  have e4 := demo_mk_some c 4 r_outer r_inner (by norm_num) hpos hle
  have e6 := demo_mk_some c 6 r_outer r_inner (by norm_num) hpos hle
  have e8 := demo_mk_some c 8 r_outer r_inner (by norm_num) hpos hle
  have e10 := demo_mk_some c 10 r_outer r_inner (by norm_num) hpos hle
  have e12 := demo_mk_some c 12 r_outer r_inner (by norm_num) hpos hle
  simp [course_candidates, seg_list, demo_opts, e2, e4, e6, e8, e10, e12]

lemma demo_pick (c : ℕ) (r_outer r_inner : ℝ)
    (hpos : 0 < r_outer + r_inner) (hle : r_outer + r_inner ≤ 15) :
    pick_best (course_candidates c r_outer r_inner 40 demo_opts) =
      some (mk_option_val c 2 r_outer r_inner 48 100) := by
  rw [demo_cands c r_outer r_inner hpos hle]
  apply pick_best_cons_keep
  intro x hx
  have hgen : ∀ k : ℕ, 0 < k →
      ¬ better (mk_option_val c k r_outer r_inner 48 100)
        (mk_option_val c 2 r_outer r_inner 48 100) := by
    intro k hk
    apply not_better_of_eq
    · show mo_plates k r_outer r_inner 100 = mo_plates 2 r_outer r_inner 100
      rw [demo_plates_one k r_outer r_inner hk hpos hle,
        demo_plates_one 2 r_outer r_inner (by norm_num) hpos hle]
    · show mo_waste k r_outer r_inner 48 100 = mo_waste 2 r_outer r_inner 48 100
      rw [demo_waste_eq k r_outer r_inner hk hpos hle,
        demo_waste_eq 2 r_outer r_inner (by norm_num) hpos hle]
  simp only [List.mem_cons, List.not_mem_nil, or_false] at hx
  rcases hx with rfl | rfl | rfl | rfl | rfl
  · exact hgen 4 (by norm_num)
  · exact hgen 6 (by norm_num)
  · exact hgen 8 (by norm_num)
  · exact hgen 10 (by norm_num)
  · exact hgen 12 (by norm_num)

lemma demo_estimate (og : Option (List ℕ)) :
    estimate_plate_usage_per_course demo_info demo_opts og =
      [CourseResult.fit (mk_option_val 1 2 10 5 48 100),
       CourseResult.fit (mk_option_val 2 2 5 1 48 100)] := by
  have p1 := demo_pick 1 10 5 (by norm_num) (by norm_num)
  have p2 := demo_pick 2 5 1 (by norm_num) (by norm_num)
  unfold estimate_plate_usage_per_course
  show (List.range demo_info.numCourses).map _ = _
  have hn : demo_info.numCourses = 2 := rfl
  rw [hn]
  rw [show List.range 2 = [0, 1] by rfl]
  simp only [List.map_cons, List.map_nil]
  norm_num [demo_info]
  rw [p1, p2]
  exact ⟨rfl, rfl⟩

lemma getD_map_range {α : Type} (f : ℕ → α) (d : α) (n i : ℕ) (h : i < n) :
    ((List.range n).map f).getD i d = f i := by
  rw [List.getD_eq_getElem?_getD, List.getElem?_map, List.getElem?_range h]
  rfl

lemma mem_course_candidates_course {course : ℕ} {r_outer r_inner slant : ℝ}
    {opts : List (ℝ × ℝ)} {o : GoreOption}
    (h : o ∈ course_candidates course r_outer r_inner slant opts) : o.course = course := by
  unfold course_candidates at h
  rw [List.mem_flatMap] at h
  obtain ⟨segs, _, hmem⟩ := h
  rw [List.mem_filterMap] at hmem
  obtain ⟨wl, _, hmk⟩ := hmem
  obtain ⟨ho, -, -⟩ := mk_option_mem_some hmk
  rw [ho]
  rfl

/-- Claim C9: the aggregate optimizer's output is independent of its
`area_needed` argument — the parameter is never read by
`optimize_plate_usage`, so any two values give identical results. -/
theorem C9_area_needed_unused (a1 a2 : ℝ) (opts : List (ℝ × ℝ)) (ci : CourseInfo) :
    optimize_plate_usage a1 opts ci = optimize_plate_usage a2 opts ci := rfl

/-- Claim C6: `calculate_slant_height` fails (raises, modelled by `none`)
at `angle = 0` since `sin 0 = 0` — no default value is substituted — and for
any diameter `> 0` and angle in `(0, 90)` it returns
`(r_large - r_small) / sin(angle_rad)` rounded to two decimals. -/
theorem C6_slant_height_domain (d a : ℝ) (hd : 0 < d) (h1 : 0 < a) (h2 : a < 90) :
    calculate_slant_height d 0 2 = none ∧
      calculate_slant_height d a 2 =
        some (round2 ((d / 2 - 2 / 2) / Real.sin (a * π / 180))) := by
  constructor
  · unfold calculate_slant_height radiansOf
    rw [if_pos]
    norm_num
  · unfold calculate_slant_height slant_raw radiansOf
    rw [if_neg]
    apply ne_of_gt
    apply Real.sin_pos_of_pos_of_lt_pi
    · have hp := Real.pi_pos
      positivity
    · have hp := Real.pi_pos
      nlinarith

/-- Witness for C6 at diameter 168, angle 60. -/
theorem C6_witness :
    (0:ℝ) < 168 ∧ (0:ℝ) < 60 ∧ (60:ℝ) < 90 ∧
      (calculate_slant_height 168 0 2 = none ∧
        calculate_slant_height 168 60 2 =
          some (round2 ((168 / 2 - 2 / 2) / Real.sin (60 * π / 180)))) :=
  ⟨by norm_num, by norm_num, by norm_num,
    C6_slant_height_domain 168 60 (by norm_num) (by norm_num) (by norm_num)⟩

/-- Claim C1 (evaluation at the failing input): the override entry point
`estimate_plate_usage_per_course(course_info, plate_options, override_gores)`
ignores `override_gores` entirely — the result is identical for every
override value, and on the concrete two-course `demo_info` with override
`[4, 4]` both returned entries have `segments = 2`, not the supplied 4. -/
theorem C1_override_ignored :
    (∀ og : Option (List ℕ),
        estimate_plate_usage_per_course demo_info demo_opts og =
          estimate_plate_usage_per_course demo_info demo_opts none) ∧
      (estimate_plate_usage_per_course demo_info demo_opts (some [4, 4])).map segmentsOf
        = [2, 2] := by
  constructor
  · intro og
    rfl
  · rw [demo_estimate (some [4, 4])]
    rfl

/-- Claim C10: the per-course estimator returns exactly `numberOfCourses`
entries; the entry in position `i` (0-based) carries course index `i + 1`,
and a course with an empty candidate list still contributes the explicit
`"No fit"` placeholder at its position. -/
theorem C10_result_shape (ci : CourseInfo) (opts : List (ℝ × ℝ)) (og : Option (List ℕ)) :
    (estimate_plate_usage_per_course ci opts og).length = ci.numCourses ∧
      ∀ i : ℕ, i < ci.numCourses →
        courseOf ((estimate_plate_usage_per_course ci opts og).getD i (CourseResult.nofit 0))
            = i + 1 ∧
          (course_candidates (i + 1) (ci.breakDiams.getD i 0 / 2)
              (ci.breakDiams.getD (i + 1) 0 / 2) ci.courseSlant opts = [] →
            (estimate_plate_usage_per_course ci opts og).getD i (CourseResult.nofit 0)
              = CourseResult.nofit (i + 1)) := by
  constructor
  · unfold estimate_plate_usage_per_course
    rw [List.length_map, List.length_range]
  · intro i hi
    unfold estimate_plate_usage_per_course
    rw [getD_map_range _ _ _ i hi]
    constructor
    · cases hp : pick_best (course_candidates (i + 1) (ci.breakDiams.getD i 0 / 2)
          (ci.breakDiams.getD (i + 1) 0 / 2) ci.courseSlant opts) with
      | none => rfl
      | some b =>
          show b.course = i + 1
          exact mem_course_candidates_course (pick_best_spec _ _ hp).1
    · intro hempty
      rw [show pick_best (course_candidates (i + 1) (ci.breakDiams.getD i 0 / 2)
          (ci.breakDiams.getD (i + 1) 0 / 2) ci.courseSlant opts) = none from
        (pick_best_none_iff _).mpr hempty]

/-- Witness for C10 on the concrete `demo_info`. -/
theorem C10_witness :
    0 < demo_info.numCourses ∧
      courseOf ((estimate_plate_usage_per_course demo_info demo_opts none).getD 0
          (CourseResult.nofit 0)) = 0 + 1 :=
  ⟨by norm_num [demo_info],
    ((C10_result_shape demo_info demo_opts none).2 0 (by norm_num [demo_info])).1⟩

/-- Claim C2 (counterexample): on `demo_info`'s first course with the single
48 x 100 plate, the scan retains the `segments = 2` candidate, yet the
`segments = 4` candidate in the same candidate list is strictly smaller under
the spec's ranking tuple `(plates, waste, |segments - 4|)` — equal plates,
equal waste, smaller `|segments - 4|`.  The retained candidate is therefore
not minimal under the spec's three-part lexicographic order: the code
implements only the two-part comparison `(plates, waste)`. -/
theorem C2_counterexample :
    pick_best (course_candidates 1 10 5 40 demo_opts) =
        some (mk_option_val 1 2 10 5 48 100) ∧
      mk_option_val 1 4 10 5 48 100 ∈ course_candidates 1 10 5 40 demo_opts ∧
      specLess (mk_option_val 1 4 10 5 48 100) (mk_option_val 1 2 10 5 48 100) := by
  refine ⟨demo_pick 1 10 5 (by norm_num) (by norm_num), ?_, ?_⟩
  · rw [demo_cands 1 10 5 (by norm_num) (by norm_num)]
    simp
  · refine Or.inr ⟨?_, Or.inr ⟨?_, ?_⟩⟩
    · show mo_plates 4 10 5 100 = mo_plates 2 10 5 100
      rw [demo_plates_one 4 10 5 (by norm_num) (by norm_num) (by norm_num),
        demo_plates_one 2 10 5 (by norm_num) (by norm_num) (by norm_num)]
    · show mo_waste 4 10 5 48 100 = mo_waste 2 10 5 48 100
      rw [demo_waste_eq 4 10 5 (by norm_num) (by norm_num) (by norm_num),
        demo_waste_eq 2 10 5 (by norm_num) (by norm_num) (by norm_num)]
    · show |((4:ℕ) : ℤ) - 4| < |((2:ℕ) : ℤ) - 4|
      norm_num

/-- Claim C2 (amended): every course entry the estimator selects comes from
that course's candidate list and is minimal under the two-part lexicographic
comparison `(plates, waste)` the source actually performs (ties keep the
earlier candidate in iteration order); the `|segments - 4|` tie-break of the
spec is not part of the code's ranking. -/
theorem C2_selected_minimal (ci : CourseInfo) (opts : List (ℝ × ℝ)) (og : Option (List ℕ))
    (i : ℕ) (b : GoreOption) (hi : i < ci.numCourses)
    (h : (estimate_plate_usage_per_course ci opts og).getD i (CourseResult.nofit 0) =
      CourseResult.fit b) :
    b ∈ course_candidates (i + 1) (ci.breakDiams.getD i 0 / 2)
        (ci.breakDiams.getD (i + 1) 0 / 2) ci.courseSlant opts ∧
      ∀ c ∈ course_candidates (i + 1) (ci.breakDiams.getD i 0 / 2)
          (ci.breakDiams.getD (i + 1) 0 / 2) ci.courseSlant opts, ¬ better c b := by
  unfold estimate_plate_usage_per_course at h
  rw [getD_map_range _ _ _ i hi] at h
  cases hp : pick_best (course_candidates (i + 1) (ci.breakDiams.getD i 0 / 2)
      (ci.breakDiams.getD (i + 1) 0 / 2) ci.courseSlant opts) with
  | none =>
      rw [hp] at h
      exact absurd h (by simp)
  | some r =>
      rw [hp] at h
      have hrb : r = b := by
        injection h
      subst hrb
      exact pick_best_spec _ _ hp

/-- Witness for C2 on the concrete `demo_info`, course 1. -/
theorem C2_witness :
    0 < demo_info.numCourses ∧
      (estimate_plate_usage_per_course demo_info demo_opts none).getD 0 (CourseResult.nofit 0)
          = CourseResult.fit (mk_option_val 1 2 10 5 48 100) ∧
      (mk_option_val 1 2 10 5 48 100 ∈ course_candidates (0 + 1)
          (demo_info.breakDiams.getD 0 0 / 2) (demo_info.breakDiams.getD (0 + 1) 0 / 2)
          demo_info.courseSlant demo_opts ∧
        ∀ c ∈ course_candidates (0 + 1) (demo_info.breakDiams.getD 0 0 / 2)
            (demo_info.breakDiams.getD (0 + 1) 0 / 2) demo_info.courseSlant demo_opts,
          ¬ better c (mk_option_val 1 2 10 5 48 100)) := by
  have hentry : (estimate_plate_usage_per_course demo_info demo_opts none).getD 0
      (CourseResult.nofit 0) = CourseResult.fit (mk_option_val 1 2 10 5 48 100) := by
    rw [demo_estimate none]
    rfl
  exact ⟨by norm_num [demo_info], hentry,
    C2_selected_minimal demo_info demo_opts none 0 (mk_option_val 1 2 10 5 48 100)
      (by norm_num [demo_info]) hentry⟩

lemma fit_times_plates_ge {segs : ℕ} {fit : ℤ} (hseg : 0 < segs) (hfit : 1 ≤ fit) :
    (segs : ℤ) ≤ fit * ⌈(segs : ℝ) / (fit : ℝ)⌉ := by
  have hf : (0:ℝ) < (fit : ℝ) := by exact_mod_cast hfit
  have hc := Int.le_ceil ((segs : ℝ) / (fit : ℝ))
  have h1 : (segs : ℝ) ≤ (fit : ℝ) * ((⌈(segs : ℝ) / (fit : ℝ)⌉ : ℤ) : ℝ) := by
    rw [mul_comm, ← div_le_iff₀ hf]
    exact hc
  exact_mod_cast h1

/-- Claim C3 (amended): any candidate the gore fitter actually produces (the
two guards `slant ≤ plate_width` and `segments_fit ≥ 1` passed) satisfies
`plates == ceil(segments / fit)` exactly and `fit * plates ≥ segments`; its
waste is nonnegative under the additional geometric condition
`r_outer - r_inner ≤ plate_width` (with `0 ≤ r_inner`, `0 < r_outer`,
`0 ≤ plate_width`), which the unconstrained claim lacks. -/
theorem C3_candidate_invariants (course segs : ℕ) (r_outer r_inner slant plate_w plate_l : ℝ)
    (o : GoreOption) (hseg : 0 < segs)
    (h : mk_option course segs r_outer r_inner slant plate_w plate_l = some o) :
    o.plates = ⌈(o.segments : ℝ) / (o.fit : ℝ)⌉ ∧ 1 ≤ o.fit ∧
      (o.segments : ℤ) ≤ o.fit * o.plates ∧
      (0 ≤ r_inner → 0 < r_outer → 0 ≤ plate_w → r_outer - r_inner ≤ plate_w →
        0 ≤ o.waste) := by
  obtain ⟨ho, -, hfit0⟩ := mk_option_mem_some h
  subst ho
  have hfit : 1 ≤ mo_fit segs r_outer r_inner plate_l := by omega
  refine ⟨rfl, hfit, fit_times_plates_ge hseg hfit, ?_⟩
  intro hri hro hpw hslim
  show 0 ≤ mo_waste segs r_outer r_inner plate_w plate_l
  unfold mo_waste
  apply round2_nonneg
  have hs0 : (0:ℝ) < (segs : ℝ) := by exact_mod_cast hseg
  have hpi := Real.pi_pos
  set A := mo_arc segs r_outer r_inner with hA_def
  have hA : (0:ℝ) < A := by
    rw [hA_def]
    unfold mo_arc
    apply mul_pos
    · positivity
    · linarith
  have hfR : (1:ℝ) ≤ ((mo_fit segs r_outer r_inner plate_l : ℤ) : ℝ) := by exact_mod_cast hfit
  have hfloor : ((mo_fit segs r_outer r_inner plate_l : ℤ) : ℝ) ≤ plate_l / A := by
    rw [hA_def]
    exact Int.floor_le _
  have hfA : ((mo_fit segs r_outer r_inner plate_l : ℤ) : ℝ) * A ≤ plate_l := by
    rw [← le_div_iff₀ hA]
    exact hfloor
  have hplates : (1:ℝ) ≤ ((mo_plates segs r_outer r_inner plate_l : ℤ) : ℝ) := by
    have h1 : (0:ℤ) < mo_plates segs r_outer r_inner plate_l := by
      unfold mo_plates
      rw [Int.ceil_pos]
      apply div_pos hs0
      linarith
    exact_mod_cast h1
  have hzz : (segs : ℤ) ≤ mo_fit segs r_outer r_inner plate_l *
      mo_plates segs r_outer r_inner plate_l := fit_times_plates_ge hseg hfit
  have hsp : (segs : ℝ) ≤ ((mo_fit segs r_outer r_inner plate_l : ℤ) : ℝ) *
      ((mo_plates segs r_outer r_inner plate_l : ℤ) : ℝ) := by
    exact_mod_cast hzz
  have hseg_area : (segs : ℝ) * ((π * r_outer ^ 2 - π * r_inner ^ 2) * ((2 * π / segs) / (2 * π)))
      = (segs : ℝ) * (A * (r_outer - r_inner)) := by
    rw [hA_def]
    unfold mo_arc
    have hs : (segs : ℝ) ≠ 0 := ne_of_gt hs0
    have hp : π ≠ 0 := Real.pi_ne_zero
    field_simp
    ring
  rw [hseg_area]
  set F := ((mo_fit segs r_outer r_inner plate_l : ℤ) : ℝ)
  set P := ((mo_plates segs r_outer r_inner plate_l : ℤ) : ℝ)
  have step1 : (segs : ℝ) * (A * (r_outer - r_inner)) ≤ (segs : ℝ) * (A * plate_w) := by
    apply mul_le_mul_of_nonneg_left _ (le_of_lt hs0)
    exact mul_le_mul_of_nonneg_left hslim (le_of_lt hA)
  have step2 : (segs : ℝ) * (A * plate_w) ≤ F * P * (A * plate_w) := by
    apply mul_le_mul_of_nonneg_right hsp
    exact mul_nonneg (le_of_lt hA) hpw
  have step3 : F * P * (A * plate_w) ≤ P * (plate_w * plate_l) := by
    have hFA : F * A ≤ plate_l := hfA
    have e : F * P * (A * plate_w) = P * plate_w * (F * A) := by ring
    rw [e]
    have e2 : P * (plate_w * plate_l) = P * plate_w * plate_l := by ring
    rw [e2]
    apply mul_le_mul_of_nonneg_left hFA
    apply mul_nonneg _ hpw
    linarith
  linarith

/-- Witness for C3 on the first demo course candidate (`segments = 2`). -/
theorem C3_witness :
    0 < 2 ∧ mk_option 1 2 10 5 40 48 100 = some (mk_option_val 1 2 10 5 48 100) ∧
      ((mk_option_val 1 2 10 5 48 100).plates =
          ⌈((mk_option_val 1 2 10 5 48 100).segments : ℝ) /
            ((mk_option_val 1 2 10 5 48 100).fit : ℝ)⌉ ∧
        1 ≤ (mk_option_val 1 2 10 5 48 100).fit ∧
        ((mk_option_val 1 2 10 5 48 100).segments : ℤ) ≤
          (mk_option_val 1 2 10 5 48 100).fit * (mk_option_val 1 2 10 5 48 100).plates ∧
        ((0:ℝ) ≤ 5 → (0:ℝ) < 10 → (0:ℝ) ≤ 48 → (10:ℝ) - 5 ≤ 48 →
          0 ≤ (mk_option_val 1 2 10 5 48 100).waste)) :=
  ⟨by norm_num, demo_mk_some 1 2 10 5 (by norm_num) (by norm_num) (by norm_num),
    C3_candidate_invariants 1 2 10 5 40 48 100 (mk_option_val 1 2 10 5 48 100)
      (by norm_num) (demo_mk_some 1 2 10 5 (by norm_num) (by norm_num) (by norm_num))⟩

lemma bad_fit_eq : mo_fit 2 100 0 200 = 1 := by
  unfold mo_fit mo_arc
  have hpi4 := Real.pi_le_four
  have hpi3 := Real.pi_gt_three
  have hpi0 := Real.pi_pos
  have he : (200:ℝ) / ((2 * π / (2:ℕ)) * (((100:ℝ) + 0) / 2)) = 4 / π := by
    have hp : π ≠ 0 := Real.pi_ne_zero
    push_cast
    field_simp
    ring
  rw [he, Int.floor_eq_iff]
  constructor
  · push_cast
    rw [le_div_iff₀ hpi0]
    linarith
  · push_cast
    rw [div_lt_iff₀ hpi0]
    linarith

/-- Claim C3 (counterexample): a candidate the gore fitter produces with both
guards satisfied (`slant = 1 ≤ plate_width = 48`, `fit = 1 ≥ 1`) whose waste
is negative: course radii 100 and 0 with a 48 x 200 plate give
`waste = round(19200 - 10000π, 2) < 0`.  So "`wasteArea ≥ 0` for every
produced candidate" fails without a bound relating `r_outer - r_inner` to the
plate width. -/
theorem C3_counterexample :
    mk_option 1 2 100 0 1 48 200 = some (mk_option_val 1 2 100 0 48 200) ∧
      ¬ (1:ℝ) > 48 ∧ 1 ≤ (mk_option_val 1 2 100 0 48 200).fit ∧
      (mk_option_val 1 2 100 0 48 200).waste < 0 := by
  have hfit := bad_fit_eq
  refine ⟨mk_option_eq_some 1 2 100 0 1 48 200 (by norm_num) (by rw [hfit]; norm_num),
    by norm_num, ?_, ?_⟩
  · show 1 ≤ mo_fit 2 100 0 200
    rw [hfit]
  · show mo_waste 2 100 0 48 200 < 0
    have hpl : mo_plates 2 100 0 200 = 2 := by
      unfold mo_plates
      rw [hfit]
      norm_num
    unfold mo_waste
    rw [hpl]
    apply round2_neg_of_le
    have hpi3 := Real.pi_gt_three
    have he : (((2:ℤ)) : ℝ) * ((48:ℝ) * 200) -
        ((2:ℕ) : ℝ) * ((π * (100:ℝ) ^ 2 - π * (0:ℝ) ^ 2) * ((2 * π / ((2:ℕ) : ℝ)) / (2 * π)))
        = 19200 - 10000 * π := by
      have hp : π ≠ 0 := Real.pi_ne_zero
      push_cast
      field_simp
      ring
    rw [he]
    nlinarith

lemma any_nofit_iff (ci : CourseInfo) (opts : List (ℝ × ℝ)) (og : Option (List ℕ)) :
    (estimate_plate_usage_per_course ci opts og).any isNoFit = true ↔
      ∃ i, i < ci.numCourses ∧
        course_candidates (i + 1) (ci.breakDiams.getD i 0 / 2)
          (ci.breakDiams.getD (i + 1) 0 / 2) ci.courseSlant opts = [] := by
  unfold estimate_plate_usage_per_course
  rw [List.any_eq_true]
  constructor
  · rintro ⟨r, hr, hnf⟩
    rw [List.mem_map] at hr
    obtain ⟨i, hi, hri⟩ := hr
    rw [List.mem_range] at hi
    refine ⟨i, hi, ?_⟩
    rw [← pick_best_none_iff]
    cases hp : pick_best (course_candidates (i + 1) (ci.breakDiams.getD i 0 / 2)
        (ci.breakDiams.getD (i + 1) 0 / 2) ci.courseSlant opts) with
    | none => rfl
    | some b =>
        rw [hp] at hri
        rw [← hri] at hnf
        exact absurd hnf (by simp [isNoFit])
  · rintro ⟨i, hi, hcand⟩
    refine ⟨CourseResult.nofit (i + 1), ?_, rfl⟩
    rw [List.mem_map]
    refine ⟨i, List.mem_range.mpr hi, ?_⟩
    rw [(pick_best_none_iff _).mpr hcand]

/-- Claim C5: `optimize_plate_usage` returns the failure `None` exactly when
at least one course has an empty candidate list (no viable (segments, plate)
combination); it never returns a partly-summed aggregate in that case, and
otherwise returns the sums of the selected candidates' `plates` and `waste`
together with the full per-course layout. -/
theorem C5_optimize_nofit (a : ℝ) (opts : List (ℝ × ℝ)) (ci : CourseInfo) :
    (optimize_plate_usage a opts ci = none ↔
      ∃ i, i < ci.numCourses ∧
        course_candidates (i + 1) (ci.breakDiams.getD i 0 / 2)
          (ci.breakDiams.getD (i + 1) 0 / 2) ci.courseSlant opts = []) ∧
      (optimize_plate_usage a opts ci ≠ none →
        optimize_plate_usage a opts ci =
          some (((estimate_plate_usage_per_course ci opts none).map platesOf).sum, "mixed",
            ((estimate_plate_usage_per_course ci opts none).map wasteOf).sum,
            estimate_plate_usage_per_course ci opts none)) := by
  unfold optimize_plate_usage
  by_cases hany : (estimate_plate_usage_per_course ci opts none).any isNoFit
  · rw [if_pos hany]
    exact ⟨⟨fun _ => (any_nofit_iff ci opts none).mp hany, fun _ => rfl⟩,
      fun hne => absurd rfl hne⟩
  · rw [if_neg hany]
    constructor
    · constructor
      · intro h
        exact absurd h (by simp)
      · intro hex
        exact absurd ((any_nofit_iff ci opts none).mpr hex) hany
    · intro _
      rfl

/-- Witness for C5 on the concrete `demo_info`: no course is unfit, and the
aggregate is the sum over the two selected candidates. -/
theorem C5_witness :
    optimize_plate_usage 0 demo_opts demo_info ≠ none ∧
      optimize_plate_usage 0 demo_opts demo_info =
        some (((estimate_plate_usage_per_course demo_info demo_opts none).map platesOf).sum,
          "mixed",
          ((estimate_plate_usage_per_course demo_info demo_opts none).map wasteOf).sum,
          estimate_plate_usage_per_course demo_info demo_opts none) := by
  have hne : optimize_plate_usage 0 demo_opts demo_info ≠ none := by
    unfold optimize_plate_usage
    rw [demo_estimate none]
    simp [isNoFit]
  exact ⟨hne, (C5_optimize_nofit 0 demo_opts demo_info).2 hne⟩

lemma num_courses_ge_two (total maxw : ℝ) : 2 ≤ num_courses_loop total maxw :=
  le_max_left _ _

lemma num_courses_pos_real (total maxw : ℝ) : (0:ℝ) < (num_courses_loop total maxw : ℝ) := by
  have h := num_courses_ge_two total maxw
  exact_mod_cast lt_of_lt_of_le (by norm_num) h

lemma num_courses_exit (total maxw : ℝ) (hm : 0 < maxw) :
    total / (num_courses_loop total maxw : ℝ) ≤ maxw := by
  have hn0 := num_courses_pos_real total maxw
  rw [div_le_iff₀ hn0]
  have h1 : total / maxw ≤ ((num_courses_loop total maxw : ℕ) : ℝ) := by
    have h2 : (⌈total / maxw⌉₊ : ℝ) ≤ ((num_courses_loop total maxw : ℕ) : ℝ) := by
      exact_mod_cast le_max_right 2 ⌈total / maxw⌉₊
    exact le_trans (Nat.le_ceil _) h2
  calc total = total / maxw * maxw := by field_simp
    _ ≤ (num_courses_loop total maxw : ℝ) * maxw := by
        apply mul_le_mul_of_nonneg_right h1 (le_of_lt hm)
    _ = maxw * (num_courses_loop total maxw : ℝ) := by ring

lemma num_courses_min (total maxw : ℝ) (hm : 0 < maxw) (k : ℕ) (hk2 : 2 ≤ k)
    (hk : total / (k : ℝ) ≤ maxw) : num_courses_loop total maxw ≤ k := by
  have hk0 : (0:ℝ) < (k : ℝ) := by
    have : 0 < k := lt_of_lt_of_le (by norm_num) hk2
    exact_mod_cast this
  have h1 : total ≤ (k : ℝ) * maxw := by
    rw [div_le_iff₀ hk0] at hk
    linarith [hk]
  have h2 : total / maxw ≤ (k : ℝ) := by
    rw [div_le_iff₀ hm]
    linarith
  exact max_le hk2 (Nat.ceil_le.mpr h2)

lemma used_width_cases (m : Moc) (cs : ℝ) :
    ((first_ge (plate_widths m) cs).getD (max_width m) ∈ plate_widths m ∧
        cs ≤ (first_ge (plate_widths m) cs).getD (max_width m) ∧
        ∀ w ∈ plate_widths m, cs ≤ w →
          (first_ge (plate_widths m) cs).getD (max_width m) ≤ w) ∨
      ((∀ w ∈ plate_widths m, w < cs) ∧
        (first_ge (plate_widths m) cs).getD (max_width m) = max_width m) := by
  cases m
  case stainless =>
    simp only [plate_widths, max_width, first_ge]
    by_cases hA : cs ≤ 48
    · left
      rw [if_pos hA]
      simp only [Option.getD_some]
      refine ⟨by simp, hA, ?_⟩
      intro w hw hcs
      simp only [List.mem_cons, List.not_mem_nil, or_false] at hw
      rcases hw with rfl | rfl <;> norm_num
    · by_cases hB : cs ≤ 60
      · left
        rw [if_neg hA, if_pos hB]
        simp only [Option.getD_some]
        refine ⟨by simp, hB, ?_⟩
        intro w hw hcs
        simp only [List.mem_cons, List.not_mem_nil, or_false] at hw
        rcases hw with rfl | rfl
        · exact absurd hcs hA
        · exact le_refl _
      · right
        rw [if_neg hA, if_neg hB]
        simp only [Option.getD_none]
        refine ⟨?_, trivial⟩
        intro w hw
        simp only [List.mem_cons, List.not_mem_nil, or_false] at hw
        rcases hw with rfl | rfl
        · linarith [not_le.mp hA]
        · linarith [not_le.mp hB]
  case carbon =>
    simp only [plate_widths, max_width, first_ge]
    by_cases hA : cs ≤ 96
    · left
      rw [if_pos hA]
      simp only [Option.getD_some]
      refine ⟨by simp, hA, ?_⟩
      intro w hw hcs
      simp only [List.mem_cons, List.not_mem_nil, or_false] at hw
      rcases hw with rfl | rfl <;> norm_num
    · by_cases hB : cs ≤ 120
      · left
        rw [if_neg hA, if_pos hB]
        simp only [Option.getD_some]
        refine ⟨by simp, hB, ?_⟩
        intro w hw hcs
        simp only [List.mem_cons, List.not_mem_nil, or_false] at hw
        rcases hw with rfl | rfl
        · exact absurd hcs hA
        · exact le_refl _
      · right
        rw [if_neg hA, if_neg hB]
        simp only [Option.getD_none]
        refine ⟨?_, trivial⟩
        intro w hw
        simp only [List.mem_cons, List.not_mem_nil, or_false] at hw
        rcases hw with rfl | rfl
        · linarith [not_le.mp hA]
        · linarith [not_le.mp hB]

lemma max_width_pos (m : Moc) : 0 < max_width m := by
  cases m <;> norm_num [max_width]

/-- Claim C7: the course-count loop terminates with the least `n ≥ 2` whose
course slant `total/n` does not exceed the widest catalog plate (so
`numberOfCourses ≥ 2` and `courseSlantHeight ≤ max(catalog widths)`), and
`usedPlateWidth` is the smallest catalog width at least the course slant, or
the maximum catalog width when none qualifies. -/
theorem C7_course_loop (d a : ℝ) (m : Moc) (hd : 0 < d) (h1 : 0 < a) (h2 : a < 90) :
    2 ≤ (mk_course_info d a m).numCourses ∧
      slant_raw d a 2 / ((mk_course_info d a m).numCourses : ℝ) ≤ max_width m ∧
      (∀ k : ℕ, 2 ≤ k → slant_raw d a 2 / (k : ℝ) ≤ max_width m →
        (mk_course_info d a m).numCourses ≤ k) ∧
      (((mk_course_info d a m).usedWidth ∈ plate_widths m ∧
          slant_raw d a 2 / ((mk_course_info d a m).numCourses : ℝ) ≤
            (mk_course_info d a m).usedWidth ∧
          ∀ w ∈ plate_widths m,
            slant_raw d a 2 / ((mk_course_info d a m).numCourses : ℝ) ≤ w →
              (mk_course_info d a m).usedWidth ≤ w) ∨
        ((∀ w ∈ plate_widths m,
            w < slant_raw d a 2 / ((mk_course_info d a m).numCourses : ℝ)) ∧
          (mk_course_info d a m).usedWidth = max_width m)) := by
  have hm := max_width_pos m
  refine ⟨num_courses_ge_two _ _, num_courses_exit _ _ hm,
    fun k hk2 hk => num_courses_min _ _ hm k hk2 hk, ?_⟩
  exact used_width_cases m (slant_raw d a 2 / (num_courses_loop (slant_raw d a 2) (max_width m) : ℝ))

/-- Witness for C7 at diameter 168, angle 60, stainless steel. -/
theorem C7_witness :
    (0:ℝ) < 168 ∧ (0:ℝ) < 60 ∧ (60:ℝ) < 90 ∧
      2 ≤ (mk_course_info 168 60 Moc.stainless).numCourses ∧
      slant_raw 168 60 2 / ((mk_course_info 168 60 Moc.stainless).numCourses : ℝ) ≤
        max_width Moc.stainless :=
  ⟨by norm_num, by norm_num, by norm_num,
    (C7_course_loop 168 60 Moc.stainless (by norm_num) (by norm_num) (by norm_num)).1,
    (C7_course_loop 168 60 Moc.stainless (by norm_num) (by norm_num) (by norm_num)).2.1⟩

lemma sin_radians_pos {a : ℝ} (h1 : 0 < a) (h2 : a < 90) : 0 < Real.sin (radiansOf a) := by
  unfold radiansOf
  apply Real.sin_pos_of_pos_of_lt_pi
  · have hp := Real.pi_pos
    positivity
  · have hp := Real.pi_pos
    nlinarith

/-- Claim C4 (amended): for every diameter `≥ 2` (the fixed bottom diameter)
and angle in `(0, 90)`, the break-diameter sequence has length
`numberOfCourses + 1`, is weakly decreasing (two-decimal rounding can merge
adjacent values, so strict decrease can fail), its first element is within
`0.02` of the input diameter, and its last element equals the bottom
diameter `2` exactly. -/
theorem C4_breaks_monotone (d a : ℝ) (m : Moc) (hd : 2 ≤ d) (h1 : 0 < a) (h2 : a < 90) :
    (mk_course_info d a m).breakDiams.length = (mk_course_info d a m).numCourses + 1 ∧
      (∀ i : ℕ, i < (mk_course_info d a m).numCourses →
        (mk_course_info d a m).breakDiams.getD (i + 1) 0 ≤
          (mk_course_info d a m).breakDiams.getD i 0) ∧
      |(mk_course_info d a m).breakDiams.getD 0 0 - d| ≤ 1 / 50 ∧
      (mk_course_info d a m).breakDiams.getD (mk_course_info d a m).numCourses 0 = 2 := by
  have hs_pos : 0 < Real.sin (radiansOf a) := sin_radians_pos h1 h2
  have hs_le : Real.sin (radiansOf a) ≤ 1 := Real.sin_le_one _
  have ht0 : 0 ≤ (d / 2 - 2 / 2) / Real.sin (radiansOf a) :=
    div_nonneg (by linarith) (le_of_lt hs_pos)
  have htot : 0 ≤ slant_raw d a 2 := round2_nonneg ht0
  have hn2 : 2 ≤ num_courses_loop (slant_raw d a 2) (max_width m) := num_courses_ge_two _ _
  have hn0 : (0:ℝ) < ((num_courses_loop (slant_raw d a 2) (max_width m) : ℕ) : ℝ) :=
    num_courses_pos_real _ _
  have hcs : 0 ≤ slant_raw d a 2 / ((num_courses_loop (slant_raw d a 2) (max_width m) : ℕ) : ℝ) :=
    div_nonneg htot (le_of_lt hn0)
  have hshape : (mk_course_info d a m).breakDiams =
      (List.range (num_courses_loop (slant_raw d a 2) (max_width m) + 1)).map
        (fun i : ℕ => round2 (2 * (1 + (slant_raw d a 2 - (i : ℝ) *
          (slant_raw d a 2 / ((num_courses_loop (slant_raw d a 2) (max_width m) : ℕ) : ℝ))) *
          Real.sin (radiansOf a)))) := rfl
  have hnum : (mk_course_info d a m).numCourses =
      num_courses_loop (slant_raw d a 2) (max_width m) := rfl
  rw [hshape, hnum]
  refine ⟨by rw [List.length_map, List.length_range], ?_, ?_, ?_⟩
  · intro i hi
    rw [getD_map_range _ _ _ (i + 1) (by omega), getD_map_range _ _ _ i (by omega)]
    apply round2_mono
    have hstep : ((i : ℝ) + 1) *
        (slant_raw d a 2 / ((num_courses_loop (slant_raw d a 2) (max_width m) : ℕ) : ℝ)) ≥
        (i : ℝ) *
        (slant_raw d a 2 / ((num_courses_loop (slant_raw d a 2) (max_width m) : ℕ) : ℝ)) := by
      nlinarith
    push_cast
    nlinarith
  · rw [getD_map_range _ _ _ 0 (by omega)]
    have habs : |slant_raw d a 2 - (d / 2 - 2 / 2) / Real.sin (radiansOf a)| ≤ 1 / 200 :=
      round2_abs_sub _
    have hd_eq : d = 2 + 2 * ((d / 2 - 2 / 2) / Real.sin (radiansOf a)) *
        Real.sin (radiansOf a) := by
      field_simp
      ring
    have he : 2 * (1 + (slant_raw d a 2 - ((0 : ℕ) : ℝ) *
        (slant_raw d a 2 / ((num_courses_loop (slant_raw d a 2) (max_width m) : ℕ) : ℝ))) *
        Real.sin (radiansOf a)) - d =
        2 * Real.sin (radiansOf a) *
          (slant_raw d a 2 - (d / 2 - 2 / 2) / Real.sin (radiansOf a)) := by
      have hsne : Real.sin (radiansOf a) ≠ 0 := ne_of_gt hs_pos
      push_cast
      field_simp
      ring
    have hmid : |2 * (1 + (slant_raw d a 2 - ((0 : ℕ) : ℝ) *
        (slant_raw d a 2 / ((num_courses_loop (slant_raw d a 2) (max_width m) : ℕ) : ℝ))) *
        Real.sin (radiansOf a)) - d| ≤ 1 / 100 := by
      rw [he, abs_mul]
      have h2s : |2 * Real.sin (radiansOf a)| ≤ 2 := by
        rw [abs_of_pos (by linarith)]
        linarith
      have hnn := abs_nonneg (slant_raw d a 2 - (d / 2 - 2 / 2) / Real.sin (radiansOf a))
      nlinarith
    have htri := abs_sub_le
      (round2 (2 * (1 + (slant_raw d a 2 - ((0 : ℕ) : ℝ) *
        (slant_raw d a 2 / ((num_courses_loop (slant_raw d a 2) (max_width m) : ℕ) : ℝ))) *
        Real.sin (radiansOf a))))
      (2 * (1 + (slant_raw d a 2 - ((0 : ℕ) : ℝ) *
        (slant_raw d a 2 / ((num_courses_loop (slant_raw d a 2) (max_width m) : ℕ) : ℝ))) *
        Real.sin (radiansOf a))) d
    have hr2 := round2_abs_sub
      (2 * (1 + (slant_raw d a 2 - ((0 : ℕ) : ℝ) *
        (slant_raw d a 2 / ((num_courses_loop (slant_raw d a 2) (max_width m) : ℕ) : ℝ))) *
        Real.sin (radiansOf a)))
    linarith
  · rw [getD_map_range _ _ _ (num_courses_loop (slant_raw d a 2) (max_width m)) (by omega)]
    have hne : ((num_courses_loop (slant_raw d a 2) (max_width m) : ℕ) : ℝ) ≠ 0 :=
      ne_of_gt hn0
    have he : (2 : ℝ) * (1 + (slant_raw d a 2 -
        ((num_courses_loop (slant_raw d a 2) (max_width m) : ℕ) : ℝ) *
        (slant_raw d a 2 / ((num_courses_loop (slant_raw d a 2) (max_width m) : ℕ) : ℝ))) *
        Real.sin (radiansOf a)) = 2 := by
      field_simp
    rw [he, round2_two]

/-- Witness for C4 at diameter 168, angle 60, stainless steel. -/
theorem C4_witness :
    (2:ℝ) ≤ 168 ∧ (0:ℝ) < 60 ∧ (60:ℝ) < 90 ∧
      (mk_course_info 168 60 Moc.stainless).breakDiams.length =
        (mk_course_info 168 60 Moc.stainless).numCourses + 1 ∧
      |(mk_course_info 168 60 Moc.stainless).breakDiams.getD 0 0 - 168| ≤ 1 / 50 :=
  ⟨by norm_num, by norm_num, by norm_num,
    (C4_breaks_monotone 168 60 Moc.stainless (by norm_num) (by norm_num) (by norm_num)).1,
    (C4_breaks_monotone 168 60 Moc.stainless (by norm_num) (by norm_num) (by norm_num)).2.2.1⟩

lemma sin_radians_60 : Real.sin (radiansOf 60) = Real.sqrt 3 / 2 := by
  have h : radiansOf (60:ℝ) = π / 3 := by
    unfold radiansOf
    ring
  rw [h, Real.sin_pi_div_three]

lemma sin_radians_60_ne : Real.sin (radiansOf 60) ≠ 0 := by
  rw [sin_radians_60]
  have h3 : (0:ℝ) < Real.sqrt 3 := Real.sqrt_pos.mpr (by norm_num)
  positivity

/-- Claim C4 (counterexample): at diameter 2 (a legal input `> 0`) the break
diameters are `[2, 2, 2]` — a constant, not strictly decreasing, sequence:
the strict-decrease invariant fails as stated. -/
theorem C4_counterexample :
    calculate_courses_and_breaks 2 60 Moc.stainless = some (mk_course_info 2 60 Moc.stainless) ∧
      (mk_course_info 2 60 Moc.stainless).breakDiams = [2, 2, 2] ∧
      ¬ strictly_decr (mk_course_info 2 60 Moc.stainless).breakDiams := by
  have htot : slant_raw 2 60 2 = 0 := by
    unfold slant_raw
    norm_num [round2_zero]
  have hnum : num_courses_loop (slant_raw 2 60 2) (max_width Moc.stainless) = 2 := by
    rw [htot]
    unfold num_courses_loop max_width
    norm_num
  have hbreaks : (mk_course_info 2 60 Moc.stainless).breakDiams = [2, 2, 2] := by
    have hshape : (mk_course_info 2 60 Moc.stainless).breakDiams =
        (List.range (num_courses_loop (slant_raw 2 60 2) (max_width Moc.stainless) + 1)).map
          (fun i : ℕ => round2 (2 * (1 + (slant_raw 2 60 2 -
            (i : ℝ) * (slant_raw 2 60 2 /
              ((num_courses_loop (slant_raw 2 60 2) (max_width Moc.stainless) : ℕ) : ℝ))) *
            Real.sin (radiansOf 60)))) := rfl
    rw [hshape, hnum, htot]
    rw [show List.range (2 + 1) = [0, 1, 2] from rfl]
    simp only [List.map_cons, List.map_nil]
    norm_num [round2_two]
  refine ⟨?_, hbreaks, ?_⟩
  · unfold calculate_courses_and_breaks
    rw [if_neg sin_radians_60_ne]
  · rw [hbreaks]
    unfold strictly_decr
    intro hc
    rw [List.chain'_cons] at hc
    exact absurd hc.1 (by norm_num)

lemma sqrt3_bounds : 1.732 ≤ Real.sqrt 3 ∧ Real.sqrt 3 ≤ 1.7321 := by
  have h0 : (0:ℝ) ≤ 3 := by norm_num
  have hs := Real.sq_sqrt h0
  have hnn := Real.sqrt_nonneg 3
  constructor
  · nlinarith
  · nlinarith

lemma slant_168 : slant_raw 168 60 2 = 95.84 := by
  unfold slant_raw
  rw [sin_radians_60]
  obtain ⟨hlo, hhi⟩ := sqrt3_bounds
  have hpos : (0:ℝ) < Real.sqrt 3 := by linarith
  have he : ((168:ℝ) / 2 - 2 / 2) / (Real.sqrt 3 / 2) = 166 / Real.sqrt 3 := by
    have hne : Real.sqrt 3 ≠ 0 := ne_of_gt hpos
    field_simp
    ring
  rw [he]
  unfold round2
  have hr : round ((166 / Real.sqrt 3) * 100) = 9584 := by
    rw [round_eq]
    have he2 : (166 / Real.sqrt 3) * 100 = 16600 / Real.sqrt 3 := by ring
    rw [he2]
    have hlow : (9583.5:ℝ) ≤ 16600 / Real.sqrt 3 := by
      rw [le_div_iff₀ hpos]
      nlinarith
    have hup : 16600 / Real.sqrt 3 < 9584.5 := by
      rw [div_lt_iff₀ hpos]
      nlinarith
    have hfl : ⌊(16600 / Real.sqrt 3 + 1 / 2 : ℝ)⌋ = 9584 := by
      rw [Int.floor_eq_iff]
      constructor
      · push_cast
        linarith
      · push_cast
        linarith
    exact hfl
  rw [hr]
  norm_num

lemma total_slant_168 : (mk_course_info 168 60 Moc.stainless).totalSlant = 95.84 := by
  show round2 (slant_raw 168 60 2) = 95.84
  rw [slant_168]
  norm_num [round2, round_eq]

lemma num_courses_168 : (mk_course_info 168 60 Moc.stainless).numCourses = 2 := by
  show num_courses_loop (slant_raw 168 60 2) (max_width Moc.stainless) = 2
  rw [slant_168]
  unfold num_courses_loop max_width
  have hc : ⌈(95.84:ℝ) / 60⌉₊ = 2 := by
    rw [Nat.ceil_eq_iff (by norm_num)]
    constructor
    · push_cast
      norm_num
    · push_cast
      norm_num
  rw [hc]
  exact max_self 2

lemma course_slant_168 : (mk_course_info 168 60 Moc.stainless).courseSlant = 47.92 := by
  show round2 (slant_raw 168 60 2 /
    ((num_courses_loop (slant_raw 168 60 2) (max_width Moc.stainless) : ℕ) : ℝ)) = 47.92
  have hn : num_courses_loop (slant_raw 168 60 2) (max_width Moc.stainless) = 2 :=
    num_courses_168
  rw [hn, slant_168]
  norm_num [round2, round_eq]

/-- Claim C8 (counterexample): on Scenario A's inputs the program's total
slant height is `round((84 - 1)/sin 60°, 2) = 95.84`, not the `95.83` the
claim states (and `95.84 ≠ 95.83`). -/
theorem C8_counterexample :
    calculate_courses_and_breaks 168 60 Moc.stainless =
        some (mk_course_info 168 60 Moc.stainless) ∧
      (mk_course_info 168 60 Moc.stainless).totalSlant = 95.84 ∧ (95.84 : ℝ) ≠ 95.83 := by
  refine ⟨?_, total_slant_168, by norm_num⟩
  unfold calculate_courses_and_breaks
  rw [if_neg sin_radians_60_ne]

/-- Claim C8 (amended): Scenario A (`diameter = 168`, `angle = 60`,
stainless steel, bottom diameter 2) gives `totalSlantHeight = 95.84`
(`= round((84 - 1)/sin 60°, 2)`), `numberOfCourses = 2` and
`courseSlantHeight = 47.92`. -/
theorem C8_scenario_a :
    calculate_courses_and_breaks 168 60 Moc.stainless =
        some (mk_course_info 168 60 Moc.stainless) ∧
      (mk_course_info 168 60 Moc.stainless).totalSlant = 95.84 ∧
      (mk_course_info 168 60 Moc.stainless).numCourses = 2 ∧
      (mk_course_info 168 60 Moc.stainless).courseSlant = 47.92 := by
  refine ⟨?_, total_slant_168, num_courses_168, course_slant_168⟩
  unfold calculate_courses_and_breaks
  rw [if_neg sin_radians_60_ne]

end
